import Mathlib

/-!
# Verification of the miscalibrated ingestion pipeline

Shallow embedding of the streaming ingestion / normalization / chunking
pipeline (`backend/kafka/...`), the category-scraper cache
(`model/scripts/scrapeAllCategories.py`), and the spec-described upsert
store and edge detector, together with proofs about the spec claims.

JSON payloads are modelled by the inductive `JVal`; Python numbers
(ints and floats) are modelled by `ℚ`, with Python `bool` kept separate
(it coerces to 0/1 in arithmetic, as in CPython).
-/

set_option maxHeartbeats 1000000

/-- A decoded JSON value, as produced by Python `json.loads`. -/
inductive JVal : Type where
  | jstr (s : String)
  | jnum (q : ℚ)
  | jbool (b : Bool)
  | jnull
  | jarr (xs : List JVal)
  | jobj (fields : List (String × JVal))

/-- A Python dict decoded from JSON: association list with string keys. -/
abbrev JObj := List (String × JVal)

/-- `o[k]` / `o.get(k)` without a default: first binding of key `k`. -/
def objGet? (o : JObj) (k : String) : Option JVal :=
  (o.find? (fun p => p.fst == k)).map (fun p => p.snd)

/-- Python `o.get(k, d)`. -/
def objGet (o : JObj) (k : String) (d : JVal) : JVal :=
  (objGet? o k).getD d

/-- Value of a list of ASCII digit characters read in base 10. -/
def digitsNat (cs : List Char) : ℕ :=
  cs.foldl (fun n c => n * 10 + (c.toNat - 48)) 0

/-- Parse an unsigned decimal literal `digits[.digits]` / `.digits` / `digits.`
exactly as Python `float` accepts it (exponent notation and the non-finite
literals `inf`/`nan`, which have no `ℚ` counterpart, are outside the model). -/
def parseUnsignedFloat (cs : List Char) : Option ℚ :=
  let ip := cs.takeWhile Char.isDigit
  let rest := cs.dropWhile Char.isDigit
  match rest with
  | [] => if ip.isEmpty then none else some ((digitsNat ip : ℚ))
  | c :: rest2 =>
    if c = '.' then
      let fp := rest2.takeWhile Char.isDigit
      let rest3 := rest2.dropWhile Char.isDigit
      if rest3.isEmpty ∧ ¬(ip.isEmpty ∧ fp.isEmpty) then
        some ((digitsNat ip : ℚ) + (digitsNat fp : ℚ) / (10 : ℚ) ^ fp.length)
      else none
    else none

/-- Python `float(s)` for a string: strip surrounding whitespace, optional
sign, then an unsigned decimal literal; `none` models `ValueError`. -/
def pyFloatOfStr (s : String) : Option ℚ :=
  let cs := ((s.toList.dropWhile Char.isWhitespace).reverse.dropWhile Char.isWhitespace).reverse
  match cs with
  | [] => none
  | c :: rest =>
    if c = '-' then (parseUnsignedFloat rest).map (fun q => -q)
    else if c = '+' then parseUnsignedFloat rest
    else parseUnsignedFloat cs

/-- Python `float(x)` on a JSON value; `none` models a raised—and, at every
call site in the consumers, caught—`TypeError`/`ValueError`. -/
def pyFloat : JVal → Option ℚ
  | .jnum q => some q
  | .jbool b => some (if b then 1 else 0)
  | .jstr s => pyFloatOfStr s
  | _ => none

/-- Numeric value of an operand of Python `+` / `/` arithmetic (`bool` is an
`int` in Python).  A `none` models an arithmetic `TypeError`: for the one
expression this is used in, `(raw.get("yes_bid", 0) + raw.get("yes_ask", 0))
/ 200`, every non-numeric operand pair leads to a `TypeError` either at the
`+` or at the `/ 200` (string and list concatenation succeed at `+` but then
fail at the division), so collapsing to `none` is outcome-faithful. -/
def toNum : JVal → Option ℚ
  | .jnum q => some q
  | .jbool b => some (if b then 1 else 0)
  | _ => none

/-- Python `x == "lit"` for a JSON value: true only for the equal string. -/
def jStrEq (v : JVal) (s : String) : Bool :=
  match v with
  | .jstr t => t == s
  | _ => false

/-- Python truthiness of a JSON value. -/
def pyTruthy : JVal → Bool
  | .jstr s => ¬s.isEmpty
  | .jnum q => q ≠ 0
  | .jbool b => b
  | .jnull => false
  | .jarr xs => ¬xs.isEmpty
  | .jobj o => ¬o.isEmpty

/-- Python `a or b`. -/
def pyOr (a b : JVal) : JVal := if pyTruthy a then a else b

/-- Python `str(x)` as used in f-strings and key encoding.  Strings are
rendered exactly; renderings of the other shapes are canonical placeholders
(no claim depends on them). -/
def pyStr : JVal → String
  | .jstr s => s
  | .jnum q => toString q
  | .jbool b => if b then "True" else "False"
  | .jnull => "None"
  | .jarr _ => "<list>"
  | .jobj _ => "<dict>"

/-- The shared Market schema dict built by the normalizers
(`markets_consumer.py`).  Fields that the Python code stores without
conversion keep the raw `JVal`. -/
structure NMarket where
  platform : String
  externalId : JVal
  title : JVal
  category : JVal
  closeTime : JVal
  yesPrice : ℚ
  volume : JVal
  isOpen : JVal

/-- `normalize_kalshi` (markets_consumer.py:81).  `none` models the
`return None` taken when the wrapped `KeyError`/`TypeError` is caught:
a missing `"ticker"` key, or non-numeric `yes_bid`/`yes_ask` operands.
On a non-dict argument, `raw["ticker"]` raises a `TypeError`, which the
function also catches. -/
def normalizeKalshi (raw : JVal) : Option NMarket :=
  match raw with
  | .jobj o =>
    match objGet? o "ticker" with
    | none => none
    | some t =>
      match toNum (objGet o "yes_bid" (.jnum 0)), toNum (objGet o "yes_ask" (.jnum 0)) with
      | some b, some a =>
        some { platform := "kalshi"
               externalId := t
               title := objGet o "title" (.jstr "")
               category := objGet o "category" (.jstr "")
               closeTime := objGet o "close_time" .jnull
               yesPrice := (b + a) / 200
               volume := objGet o "volume" (.jnum 0)
               isOpen := .jbool (jStrEq (objGet o "status" .jnull) "open") }
      | _, _ => none
  | _ => none

/-- Outcome of `float(raw.get("outcomePrices", ["0"])[0])`
(markets_consumer.py:116): `pok` a parsed price, `pcaught` a
`KeyError`/`TypeError`/`ValueError` caught by the surrounding handler, and
`praise` an `IndexError` (empty list, or `[0]` on an empty string), which
the handler does **not** catch. -/
inductive PmPrice : Type where
  | pok (q : ℚ)
  | pcaught
  | praise

def pmFirstFloat (v : JVal) : PmPrice :=
  match v with
  | .jarr [] => .praise
  | .jarr (x :: _) =>
    match pyFloat x with
    | some q => .pok q
    | none => .pcaught
  | .jstr s =>
    match s.toList with
    | [] => .praise
    | c :: _ =>
      match pyFloatOfStr (String.mk [c]) with
      | some q => .pok q
      | none => .pcaught
  | _ => .pcaught

/-- Result of `normalize_polymarket`: a normalized dict, a caught-error
`return None`, or an uncaught exception escaping the function. -/
inductive PmResult : Type where
  | ok (m : NMarket)
  | rejected
  | raised

/-- `normalize_polymarket` (markets_consumer.py:103).  The Python dict
literal evaluates its fields top to bottom; only the `yes_price` and
`volume` expressions can fail, in that order, so checking them first is
outcome-faithful.  A non-dict argument makes `raw.get` raise an uncaught
`AttributeError`. -/
def normalizePolymarket (raw : JVal) : PmResult :=
  match raw with
  | .jobj o =>
    match pmFirstFloat (objGet o "outcomePrices" (.jarr [.jstr "0"])) with
    | .praise => .raised
    | .pcaught => .rejected
    | .pok price =>
      match pyFloat (objGet o "volume" (.jnum 0)) with
      | none => .rejected
      | some vol =>
        .ok { platform := "polymarket"
              externalId := objGet o "conditionId" (objGet o "id" (.jstr ""))
              title := objGet o "question" (objGet o "title" (.jstr ""))
              category := objGet o "category" (.jstr "")
              closeTime := objGet o "endDate" .jnull
              yesPrice := price
              volume := .jnum vol
              isOpen := objGet o "active" (.jbool false) }
  | _ => .raised

/-! ## Text chunking (`news_consumer.py:65`, `chunk_text`) -/

/-- Python slice `s[a:b]` for arbitrary integer bounds: a negative index
counts from the end, then both bounds clamp into `[0, len]`. -/
def pySlice (s : List Char) (a b : ℤ) : List Char :=
  let n : ℤ := s.length
  let a2 : ℤ := if a < 0 then max (n + a) 0 else min a n
  let b2 : ℤ := if b < 0 then max (n + b) 0 else min b n
  (s.take b2.toNat).drop a2.toNat

/-- The `while start < len(text)` loop of `chunk_text`, with explicit fuel:
`none` means the fuel ran out with the loop still running.  `start` is an
integer, as in Python (for `chunk_size < 200` it goes negative). -/
def chunkLoop (text : List Char) (chunkSize : ℤ) : ℤ → ℕ → Option (List (List Char))
  | start, 0 => if start < (text.length : ℤ) then none else some []
  | start, fuel + 1 =>
    if start < (text.length : ℤ) then
      (chunkLoop text chunkSize (start + chunkSize - 200) fuel).map
        (fun rest => pySlice text start (min (start + chunkSize) (text.length : ℤ)) :: rest)
    else some []

/-- `chunk_text(text, chunk_size)` (news_consumer.py:65): overlap is the
hard-coded 200.  `text.length + 1` units of fuel always suffice when
`chunk_size > 200` (proved below), which covers every call in the repo
(the only call site uses the default `CHUNK_SIZE = 2000`). -/
def chunkText (text : List Char) (chunkSize : ℤ) : List (List Char) :=
  (chunkLoop text chunkSize 0 (text.length + 1)).getD []

/-- The last `n` elements of a list (`l[-n:]` for `0 < n ≤ l.length`). -/
def takeLast (l : List Char) (n : ℕ) : List Char :=
  l.drop (l.length - n)

/-! ## Consumer loops (`markets_consumer.py:134`, `news_consumer.py:153`) -/

/-- One Kafka message as the consumer sees it.  `decoded` models
`json.loads(msg.value().decode("utf-8"))`: `none` is a
`UnicodeDecodeError`/`JSONDecodeError`. -/
structure KMsg where
  topic : String
  offset : ℕ
  decoded : Option JVal

/-- Observable side effects of one consumer iteration, in program order. -/
inductive Act : Type where
  | commit (offset : ℕ)
  | upsertA (m : NMarket)
  | storeA (url : JVal) (chunk : String)

/-- The body of the markets-consumer loop for one message: the ordered
side effects, and whether an uncaught exception escaped the iteration
(in which case the `while` loop is abandoned). -/
def marketsStep (msg : KMsg) : List Act × Bool :=
  match msg.decoded with
  | none => ([Act.commit msg.offset], false)
  | some raw =>
    if msg.topic = "kalshi.markets" then
      match normalizeKalshi raw with
      | some m => ([Act.upsertA m, Act.commit msg.offset], false)
      | none => ([Act.commit msg.offset], false)
    else if msg.topic = "polymarket.markets" then
      match normalizePolymarket raw with
      | PmResult.ok m => ([Act.upsertA m, Act.commit msg.offset], false)
      | PmResult.rejected => ([Act.commit msg.offset], false)
      | PmResult.raised => ([], true)
    else ([Act.commit msg.offset], false)

/-- The markets-consumer loop over a finite message sequence. -/
def marketsRun : List KMsg → List Act
  | [] => []
  | m :: rest =>
    let r := marketsStep m
    if r.2 then r.1 else r.1 ++ marketsRun rest

/-- Python `x[:n]` slicing is defined only for sequences: strings and
lists slice, every other JSON shape raises `TypeError`. -/
def jSliceable : JVal → Bool
  | .jstr _ => true
  | .jarr _ => true
  | _ => false

/-- `process_article` (news_consumer.py:123).  `embedOk i` models whether
`embed_text` returned a (truthy, non-empty) embedding for chunk `i`; the
provider call itself is external.  Returns the `(url, chunk)` pairs
actually passed to a completing `store_chunk` call, and whether an
uncaught exception escaped the function afterwards: an `AttributeError`
from `article.get` on a non-dict, or from
`article.get("source", {}).get("name")` when the `"source"` value is not
a dict (both before any store); a `TypeError` from `article_url[:60]`
inside the first `store_chunk` call when the url is not sliceable (so no
chunk is stored); or a `TypeError` from `title[:50]` in the final
`log.info` line when the title is not sliceable — that one fires after
every store already completed.  The no-content early return only
`str()`-formats the url in a log line, which cannot fail. -/
def processArticle (article : JVal) (embedOk : ℕ → Bool) :
    List (JVal × String) × Bool :=
  match article with
  | .jobj o =>
    let url := objGet o "url" (.jstr "")
    let title := objGet o "title" (.jstr "")
    let content := pyOr (objGet o "content" (.jstr "")) (objGet o "description" (.jstr ""))
    if pyTruthy content then
      match objGet o "source" (.jobj []) with
      | .jobj _ =>
        let fullText := pyStr title ++ "\n\n" ++ pyStr content
        let chunks := chunkText fullText.toList 2000
        let stored := (chunks.enum).filter (fun p => embedOk p.1)
        if stored.isEmpty then ([], !jSliceable title)
        else if jSliceable url then
          (stored.map (fun p => (url, String.mk p.2)), !jSliceable title)
        else ([], true)
      | _ => ([], true)
    else ([], false)
  | _ => ([], true)

/-- The body of the news-consumer loop for one message.  The `try` block
catches only decode errors; the commit statement sits after it, so a decode
failure still commits, while an uncaught exception out of `process_article`
escapes the iteration before the commit is reached — even when chunks were
already stored earlier in that iteration. -/
def newsStep (embedOk : ℕ → Bool) (msg : KMsg) : List Act × Bool :=
  match msg.decoded with
  | none => ([Act.commit msg.offset], false)
  | some article =>
    match processArticle article embedOk with
    | (stores, true) => (stores.map (fun p => Act.storeA p.1 p.2), true)
    | (stores, false) =>
      (stores.map (fun p => Act.storeA p.1 p.2) ++ [Act.commit msg.offset], false)

/-- The news-consumer loop over a finite message sequence. -/
def newsRun (embedOk : ℕ → Bool) : List KMsg → List Act
  | [] => []
  | m :: rest =>
    let r := newsStep embedOk m
    if r.2 then r.1 else r.1 ++ newsRun embedOk rest

/-! ## Ingestion producers (`kafka/producers/*.py`) -/

/-- The confluent-kafka `Producer` configuration dict fields the spec
constrains. -/
structure ProducerConfig where
  acks : String
  retries : ℕ
  retryBackoffMs : Option ℕ

/-- `create_producer` in kalshi_producer.py:58. -/
def kalshiProducerConfig : ProducerConfig :=
  { acks := "all", retries := 5, retryBackoffMs := some 500 }

/-- `create_producer` in polymarket_producer.py:43. -/
def polymarketProducerConfig : ProducerConfig :=
  { acks := "all", retries := 5, retryBackoffMs := some 500 }

/-- `create_producer` in news_producer.py:49. -/
def newsProducerConfig : ProducerConfig :=
  { acks := "all", retries := 5, retryBackoffMs := none }

/-- Observable operations of one producer poll cycle, in program order. -/
inductive POp : Type where
  | produceOp (key : String)
  | flushOp
  | sleepOp (secs : ℕ)
deriving DecidableEq

/-- Kafka message key in kalshi_producer.py:108:
`market.get("ticker", "unknown").encode("utf-8")`.  `none` models the
`AttributeError` from `.get` on a non-dict or `.encode` on a non-string,
caught by the cycle's generic `except Exception`. -/
def kalshiKey (m : JVal) : Option String :=
  match m with
  | .jobj o =>
    match objGet o "ticker" (.jstr "unknown") with
    | .jstr s => some s
    | _ => none
  | _ => none

/-- Kafka message key in polymarket_producer.py:87:
`str(market.get("conditionId", market.get("id", "unknown"))).encode(...)` —
the `str(...)` makes encoding total on dict input. -/
def polymarketKey (m : JVal) : Option String :=
  match m with
  | .jobj o => some (pyStr (objGet o "conditionId" (objGet o "id" (.jstr "unknown"))))
  | _ => none

/-- Kafka message key in news_producer.py:92:
`article.get("url", "").encode("utf-8")`. -/
def newsKey (a : JVal) : Option String :=
  match a with
  | .jobj o =>
    match objGet o "url" (.jstr "") with
    | .jstr s => some s
    | _ => none
  | _ => none

/-- The `for market in markets: producer.produce(...)` loop.
`produceRaises i` models `produce` raising (e.g. `KafkaException`) on the
`i`-th record; a key failure raises before the enqueue.  Returns the
produce operations actually performed and whether the loop was aborted by
an exception (jumping to the cycle's `except` handler). -/
def produceSeq (keyOf : JVal → Option String) (produceRaises : ℕ → Bool) :
    List JVal → ℕ → List POp × Bool
  | [], _ => ([], false)
  | m :: rest, i =>
    match keyOf m with
    | none => ([], true)
    | some k =>
      if produceRaises i then ([], true)
      else
        let r := produceSeq keyOf produceRaises rest (i + 1)
        (POp.produceOp k :: r.1, r.2)

/-- One iteration of the kalshi_producer.py `while True` loop.
`fetched = none` models an exception out of `fetch_kalshi_markets`
(HTTP failure), caught by the handlers; in every caught-exception path the
cycle falls through to `time.sleep(POLL_INTERVAL_SECONDS)` (default 60)
without reaching `producer.flush`. -/
def kalshiCycle (fetched : Option (List JVal)) (produceRaises : ℕ → Bool) : List POp :=
  match fetched with
  | none => [POp.sleepOp 60]
  | some markets =>
    let r := produceSeq kalshiKey produceRaises markets 0
    if r.2 then r.1 ++ [POp.sleepOp 60]
    else r.1 ++ [POp.flushOp, POp.sleepOp 60]

/-- One iteration of the polymarket_producer.py `while True` loop
(same shape as the Kalshi cycle, default poll interval 60s). -/
def polymarketCycle (fetched : Option (List JVal)) (produceRaises : ℕ → Bool) : List POp :=
  match fetched with
  | none => [POp.sleepOp 60]
  | some markets =>
    let r := produceSeq polymarketKey produceRaises markets 0
    if r.2 then r.1 ++ [POp.sleepOp 60]
    else r.1 ++ [POp.flushOp, POp.sleepOp 60]

/-- The per-query `try` body of news_producer.py:85: fetch, produce each
article, flush, `time.sleep(1)`.  Any exception skips the rest of the body
(including the flush) and moves on to the next query. -/
def newsQueryOps (articles : Option (List JVal)) (produceRaises : ℕ → Bool) : List POp :=
  match articles with
  | none => []
  | some arts =>
    let r := produceSeq newsKey produceRaises arts 0
    if r.2 then r.1
    else r.1 ++ [POp.flushOp, POp.sleepOp 1]

/-- One iteration of the news_producer.py `while True` loop: the five
`SEARCH_QUERIES` in order (indexed by position), then
`time.sleep(POLL_INTERVAL_SECONDS)` (default 300). -/
def newsCycle (fetchq : ℕ → Option (List JVal)) (produceRaises : ℕ → ℕ → Bool) : List POp :=
  ((List.range 5).map (fun qi => newsQueryOps (fetchq qi) (produceRaises qi))).flatten
    ++ [POp.sleepOp 300]

/-! ## Scraper series-category cache (`scrapeAllCategories.py:52`) -/

/-- Python `s.split("-")` on the character list of `s` (e.g. `"" ↦ [""]`,
`"a--b" ↦ ["a", "", "b"]`). -/
def splitOnDash : List Char → List (List Char)
  | [] => [[]]
  | c :: rest =>
    let r := splitOnDash rest
    if c = '-' then [] :: r
    else
      match r with
      | [] => [[c]]
      | h :: t => (c :: h) :: t

/-- `extract_series_ticker` (scrapeAllCategories.py:58): strip the trailing
date suffix (first `-`-separated part whose first two characters are ASCII
digits) from an event ticker. -/
def extractSeriesTicker (eventTicker : String) : String :=
  if eventTicker = "" then ""
  else
    let parts := splitOnDash eventTicker.toList
    let seriesParts := parts.takeWhile
      (fun part => !(decide (2 ≤ part.length) && (part.take 2).all Char.isDigit))
    if seriesParts.isEmpty then String.mk (parts.headD [])
    else String.mk (List.intercalate ['-'] seriesParts)

/-- Lookup in the process-local `_series_cache` dict. -/
def cacheLookup (cache : List (String × String)) (k : String) : Option String :=
  (cache.find? (fun p => p.fst == k)).map (fun p => p.snd)

/-- Result of one `get_category` call: the returned category, the cache
after the call, and whether an HTTP lookup was performed. -/
structure CatResult where
  category : String
  cache : List (String × String)
  didHttp : Bool
deriving DecidableEq

/-- `get_category` (scrapeAllCategories.py:71).  `net` models the category
string the HTTP lookup would produce on this call (the `try`/`except` around
the request collapses every non-200/exception outcome to `"(none)"`, so a
single resulting string is faithful). -/
def getCategory (cache : List (String × String)) (eventTicker : String) (net : String) :
    CatResult :=
  let st := extractSeriesTicker eventTicker
  if st = "" then ⟨"(none)", cache, false⟩
  else
    match cacheLookup cache st with
    | some c => ⟨c, cache, false⟩
    | none => ⟨net, cache ++ [(st, net)], true⟩

/-- A sequence of `get_category` calls threading the cache, each given as
`(event_ticker, category the network would return)`. -/
def runGetCategory (cache : List (String × String)) :
    List (String × String) → List (String × String)
  | [] => cache
  | (et, net) :: rest => runGetCategory (getCategory cache et net).cache rest

/-! ## Spec-modelled components

`upsert_market` (markets_consumer.py:125) and the Edge Detector are TODO
stubs in the source (the former only logs; the latter exists only as the
`Edge` ORM model in app/models/edge.py).  They are modelled here from the
spec's words (§4.5, §4.6, §3). -/

/-- Modelled from the spec: the `NormalizedMarket` record of §3/§4.4 that
the missing `upsert_market` body would receive. -/
structure NormalizedMarketS where
  platform : String
  externalId : String
  title : String
  category : Option String
  closeTime : Option ℕ
  yesPrice : Option ℚ
  volume : Option ℚ
  isOpen : Bool
deriving DecidableEq

/-- Modelled from the spec: one Market row of the upsert store (§3), with
row identity `id` and `createdAt` preserved across upserts. -/
structure MarketRow where
  id : ℕ
  createdAt : ℕ
  platform : String
  externalId : String
  title : String
  category : Option String
  closeTime : Option ℕ
  yesPrice : Option ℚ
  volume : Option ℚ
  isOpen : Bool
deriving DecidableEq

/-- Modelled from the spec: the Market table plus its id sequence. -/
structure MarketStore where
  rows : List MarketRow
  nextId : ℕ
deriving DecidableEq

/-- Replace the mutable fields of a row from a normalized market, keeping
`id` and `createdAt` (spec §4.5). -/
def setFields (r : MarketRow) (m : NormalizedMarketS) : MarketRow :=
  { r with platform := m.platform, title := m.title, category := m.category,
           closeTime := m.closeTime, yesPrice := m.yesPrice, volume := m.volume,
           isOpen := m.isOpen }

/-- Modelled from the spec: `upsert_market` is a TODO stub in
markets_consumer.py:125, so the store follows §4.5 — insert a new row if
`external_id` is unseen, otherwise replace the mutable fields in place
(`ON CONFLICT (external_id) DO UPDATE`), preserving `id` and `created_at`. -/
def upsertRow (m : NormalizedMarketS) (r : MarketRow) : MarketRow :=
  if r.externalId == m.externalId then setFields r m else r

/-- Modelled from the spec: see `upsertRow`; the update branch rewrites the
matching row in place. -/
def insertedRow (now : ℕ) (m : NormalizedMarketS) (nid : ℕ) : MarketRow :=
  { id := nid, createdAt := now, platform := m.platform, externalId := m.externalId,
    title := m.title, category := m.category, closeTime := m.closeTime,
    yesPrice := m.yesPrice, volume := m.volume, isOpen := m.isOpen }

/-- Modelled from the spec: see `upsertRow` and `insertedRow`. -/
def upsertMarket (now : ℕ) (m : NormalizedMarketS) (s : MarketStore) : MarketStore :=
  if s.rows.any (fun r => r.externalId == m.externalId) then
    { s with rows := s.rows.map (upsertRow m) }
  else
    { rows := s.rows ++ [insertedRow now m s.nextId], nextId := s.nextId + 1 }

/-- Modelled from the spec: an Edge row (§3 and app/models/edge.py fields,
minus the DB-generated id/timestamp). -/
structure EdgeRow where
  marketProbability : ℚ
  modelProbability : ℚ
  edgeMagnitude : ℚ
  direction : String
  alertSent : Bool
deriving DecidableEq

/-- Modelled from the spec: the system-wide edge floor (default 0.05). -/
def edgeFloor : ℚ := 5 / 100

/-- Modelled from the spec: the Edge Detector (§4.6) is not implemented in
src (only the `Edge` ORM model exists), so it follows the spec's words:
`edge_magnitude = model_probability − yes_price`; at or above the floor
create an Edge with `direction = "YES"` if the magnitude is positive else
`"NO"` and `alert_sent = false`; below the floor create nothing. -/
def detectEdge (marketProb modelProb : ℚ) : Option EdgeRow :=
  let mag := modelProb - marketProb
  if edgeFloor ≤ |mag| then
    some { marketProbability := marketProb, modelProbability := modelProb,
           edgeMagnitude := mag,
           direction := if 0 < mag then "YES" else "NO",
           alertSent := false }
  else none

/-! ## Concrete payloads used by witnesses -/

def m1s : NormalizedMarketS :=
  { platform := "kalshi", externalId := "FED-26MAR", title := "Rate cut",
    category := some "Economics", closeTime := some 100, yesPrice := some (45/100),
    volume := some 10, isOpen := true }

/-- `True` exactly on the caught-error `return None` outcome. -/
def pmIsRejected : PmResult → Bool
  | PmResult.rejected => true
  | _ => false

def k6o : JObj := [("ticker", JVal.jstr "T"), ("yes_bid", JVal.jnum 40), ("yes_ask", JVal.jnum 50)]

def k6m : NMarket :=
  { platform := "kalshi", externalId := JVal.jstr "T", title := JVal.jstr "",
    category := JVal.jstr "", closeTime := JVal.jnull, yesPrice := (40 + 50) / 200,
    volume := JVal.jnum 0, isOpen := JVal.jbool false }

def p6o : JObj := [("conditionId", JVal.jstr "0xabc"),
                   ("outcomePrices", JVal.jarr [JVal.jnum (62 / 100)])]

def p6m : NMarket :=
  { platform := "polymarket", externalId := JVal.jstr "0xabc", title := JVal.jstr "",
    category := JVal.jstr "", closeTime := JVal.jnull, yesPrice := 62 / 100,
    volume := JVal.jnum 0, isOpen := JVal.jbool false }

lemma upsertRow_externalId (m : NormalizedMarketS) (r : MarketRow) :
    (upsertRow m r).externalId = r.externalId := by
  unfold upsertRow
  split
  · simp [setFields]
  · rfl

lemma upsertRow_idem (m : NormalizedMarketS) (r : MarketRow) :
    upsertRow m (upsertRow m r) = upsertRow m r := by
  unfold upsertRow
  split
  · next h =>
    have hs : ((setFields r m).externalId == m.externalId) = true := by
      simp only [setFields]; exact h
    rw [if_pos hs]
    simp [setFields]
  · next h => rfl

lemma upsertRow_skip (m : NormalizedMarketS) (r : MarketRow)
    (h : ¬ r.externalId == m.externalId) : upsertRow m r = r := by
  simp [upsertRow, h]

lemma upsertRow_inserted (now : ℕ) (m : NormalizedMarketS) (nid : ℕ) :
    upsertRow m (insertedRow now m nid) = insertedRow now m nid := by
  simp [upsertRow, insertedRow, setFields]

lemma map_upsertRow_nomatch (m : NormalizedMarketS) (l : List MarketRow)
    (h : ∀ r ∈ l, ¬ (r.externalId == m.externalId) = true) :
    l.map (upsertRow m) = l := by
  induction l with
  | nil => rfl
  | cons a t ih =>
    simp only [List.map_cons]
    rw [upsertRow_skip m a (h a (by simp)), ih (fun r hr => h r (by simp [hr]))]

lemma upsertMarket_update (now : ℕ) (m : NormalizedMarketS) (s : MarketStore)
    (h : s.rows.any (fun r => r.externalId == m.externalId) = true) :
    upsertMarket now m s = { s with rows := s.rows.map (upsertRow m) } := by
  unfold upsertMarket; rw [if_pos h]

lemma upsertMarket_insert (now : ℕ) (m : NormalizedMarketS) (s : MarketStore)
    (h : ¬ s.rows.any (fun r => r.externalId == m.externalId)) :
    upsertMarket now m s =
      { rows := s.rows ++ [insertedRow now m s.nextId], nextId := s.nextId + 1 } := by
  unfold upsertMarket; rw [if_neg h]

lemma upsertRow_comp (m : NormalizedMarketS) :
    ((fun r : MarketRow => r.externalId == m.externalId) ∘ upsertRow m)
      = (fun r : MarketRow => r.externalId == m.externalId) := by
  funext r; simp [Function.comp, upsertRow_externalId]

/-- C1: the upsert is idempotent — for a store with at most one row per
external id, `upsert(m); upsert(m)` leaves the store exactly as a single
`upsert(m)` does, with exactly one Market row keyed by `m`'s external id
(spec-modelled store, since `upsert_market` is a TODO stub in src). -/
theorem c1_upsert_idempotent (now1 now2 : ℕ) (m : NormalizedMarketS) (s : MarketStore)
    (hwf : s.rows.countP (fun r => r.externalId == m.externalId) ≤ 1) :
    upsertMarket now2 m (upsertMarket now1 m s) = upsertMarket now1 m s ∧
    (upsertMarket now1 m s).rows.countP (fun r => r.externalId == m.externalId) = 1 := by
  by_cases h : s.rows.any (fun r => r.externalId == m.externalId)
  · rw [upsertMarket_update now1 m s h]
    have h2 : (s.rows.map (upsertRow m)).any (fun r => r.externalId == m.externalId) = true := by
      rw [List.any_map, upsertRow_comp]; exact h
    constructor
    · rw [upsertMarket_update now2 _ _ h2]
      simp only [List.map_map]
      congr 1
      apply List.map_congr_left
      intro r _
      exact upsertRow_idem m r
    · simp only [List.countP_map, upsertRow_comp]
      have hpos : 0 < s.rows.countP (fun r => r.externalId == m.externalId) := by
        rw [List.countP_pos_iff]
        obtain ⟨r, hr, hp⟩ := List.any_eq_true.mp h
        exact ⟨r, hr, hp⟩
      omega
  · have hnomem : ∀ r ∈ s.rows, ¬ (r.externalId == m.externalId) = true := by
      intro r hr
      have := List.any_eq_false.mp (Bool.eq_false_iff.mpr h) r hr
      simp [this]
    rw [upsertMarket_insert now1 m s h]
    constructor
    · have h2 : ((s.rows ++ [insertedRow now1 m s.nextId]).any
          (fun r => r.externalId == m.externalId)) = true := by
        simp [insertedRow]
      rw [upsertMarket_update now2 _ _ h2]
      simp only [List.map_append, List.map_cons, List.map_nil]
      rw [map_upsertRow_nomatch m s.rows hnomem, upsertRow_inserted]
    · simp only [List.countP_append]
      rw [List.countP_eq_zero.mpr hnomem]
      simp [insertedRow]

/-- Witness for C1 at a concrete normalized market and the empty store. -/
theorem c1_witness :
    upsertMarket 8 m1s (upsertMarket 3 m1s ⟨[], 0⟩) = upsertMarket 3 m1s ⟨[], 0⟩ ∧
    (upsertMarket 3 m1s ⟨[], 0⟩).rows.countP (fun r => r.externalId == m1s.externalId) = 1 :=
  c1_upsert_idempotent 3 8 m1s ⟨[], 0⟩ (by decide)

/-- C2: for market probability `p` and model probability `q` in `[0, 1]`,
an Edge is created iff `|q - p|` is at or above the 0.05 floor (boundary
inclusive); when created, its magnitude is `q - p`, its direction is YES
exactly when `q - p > 0` and NO otherwise, and `alert_sent` starts false;
below the floor nothing is created and no error is raised (the detector is
a total function).  Spec-modelled: the Edge Detector is not implemented in
src. -/
theorem c2_edge_detection (p q : ℚ) (hp0 : 0 ≤ p) (hp1 : p ≤ 1) (hq0 : 0 ≤ q) (hq1 : q ≤ 1) :
    ((detectEdge p q).isSome ↔ 5 / 100 ≤ |q - p|) ∧
    (detectEdge p q).map EdgeRow.edgeMagnitude
      = (if 5 / 100 ≤ |q - p| then some (q - p) else none) ∧
    (detectEdge p q).map EdgeRow.direction
      = (if 5 / 100 ≤ |q - p| then some (if 0 < q - p then "YES" else "NO") else none) ∧
    (detectEdge p q).map EdgeRow.alertSent
      = (if 5 / 100 ≤ |q - p| then some false else none) := by
  unfold detectEdge edgeFloor
  split <;> rename_i h <;> simp [h]

/-- Witness for C2 at the spec's example pair `p = 0.45`, `q = 0.62`. -/
theorem c2_witness :
    ((detectEdge (45/100) (62/100)).isSome ↔ (5/100 : ℚ) ≤ |(62/100 : ℚ) - 45/100|) ∧
    (detectEdge (45/100) (62/100)).map EdgeRow.edgeMagnitude
      = (if (5/100 : ℚ) ≤ |(62/100 : ℚ) - 45/100| then some ((62/100 : ℚ) - 45/100) else none) ∧
    (detectEdge (45/100) (62/100)).map EdgeRow.direction
      = (if (5/100 : ℚ) ≤ |(62/100 : ℚ) - 45/100|
         then some (if (0 : ℚ) < (62/100 : ℚ) - 45/100 then "YES" else "NO") else none) ∧
    (detectEdge (45/100) (62/100)).map EdgeRow.alertSent
      = (if (5/100 : ℚ) ≤ |(62/100 : ℚ) - 45/100| then some false else none) :=
  c2_edge_detection (45/100) (62/100) (by norm_num) (by norm_num) (by norm_num) (by norm_num)

lemma cacheLookup_append_of_found (cache : List (String × String)) (k : String) (v : String)
    (kv : String × String) (h : cacheLookup cache k = some v) :
    cacheLookup (cache ++ [kv]) k = some v := by
  unfold cacheLookup at h ⊢
  rw [List.find?_append]
  cases hf : cache.find? (fun p => p.fst == k) with
  | none => rw [hf] at h; simp at h
  | some p => rw [hf] at h; simp [Option.orElse, hf, h]
  
lemma getCategory_cache_mono (cache : List (String × String)) (k v : String)
    (et net : String) (h : cacheLookup cache k = some v) :
    cacheLookup (getCategory cache et net).cache k = some v := by
  by_cases hst : extractSeriesTicker et = ""
  · simp only [getCategory, hst, if_pos]; exact h
  · cases hl : cacheLookup cache (extractSeriesTicker et) with
    | some c => simp only [getCategory, hst, if_neg, hl]; exact h
    | none =>
      simp only [getCategory, hst, if_neg, hl]
      exact cacheLookup_append_of_found _ _ _ _ h

lemma runGetCategory_mono (k v : String) :
    ∀ (calls : List (String × String)) (cache : List (String × String)),
      cacheLookup cache k = some v →
      cacheLookup (runGetCategory cache calls) k = some v := by
  intro calls
  induction calls with
  | nil => intro cache h; exact h
  | cons c rest ih =>
    intro cache h
    cases c with
    | mk et net => exact ih _ (getCategory_cache_mono cache k v et net h)

/-- C9: the series-category cache is never invalidated within a run — a
call whose series ticker is already cached returns the cached value with
no HTTP lookup and leaves the cache unchanged, a single call never removes
or overwrites an existing entry, and any sequence of further calls
preserves every existing entry. -/
theorem c9_cache_never_invalidated (k v : String) (cache : List (String × String))
    (et net : String) (calls : List (String × String))
    (hk : k ≠ "") (hv : cacheLookup cache k = some v) :
    (extractSeriesTicker et = k → getCategory cache et net = ⟨v, cache, false⟩) ∧
    cacheLookup (getCategory cache et net).cache k = some v ∧
    cacheLookup (runGetCategory cache calls) k = some v := by
  refine ⟨?_, getCategory_cache_mono cache k v et net hv, runGetCategory_mono k v calls cache hv⟩
  intro hst
  simp only [getCategory, hst, if_neg hk, hv]

/-- Witness for C9 on a concrete cache and event tickers. -/
theorem c9_witness :
    getCategory [("KXFED", "Economics")] "KXFED-26JAN" "Other"
      = ⟨"Economics", [("KXFED", "Economics")], false⟩ ∧
    cacheLookup (runGetCategory [("KXFED", "Economics")] [("KXFED-26JAN", "Politics")]) "KXFED"
      = some "Economics" := by
  have h := c9_cache_never_invalidated "KXFED" "Economics" [("KXFED", "Economics")]
    "KXFED-26JAN" "Other" [("KXFED-26JAN", "Politics")] (by decide) (by decide)
  exact ⟨h.1 (by decide), h.2.2⟩

lemma pySlice_nat (s : List Char) (a b : ℕ) :
    pySlice s (a : ℤ) (b : ℤ) = (s.take b).drop a := by
  simp only [pySlice]
  rw [if_neg (by simp), if_neg (by simp)]
  have h1 : (min (a : ℤ) (s.length : ℤ)).toNat = min a s.length := by
    rw [← Nat.cast_min, Int.toNat_natCast]
  have h2 : (min (b : ℤ) (s.length : ℤ)).toNat = min b s.length := by
    rw [← Nat.cast_min, Int.toNat_natCast]
  rw [h1, h2]
  have ht : s.take (min b s.length) = s.take b := by
    rcases le_total b s.length with h | h
    · rw [min_eq_left h]
    · rw [min_eq_right h, List.take_length, List.take_of_length_le h]
  rw [ht]
  rcases le_total a s.length with h | h
  · rw [min_eq_left h]
  · rw [min_eq_right h]
    have hlb : (s.take b).length ≤ a := by rw [List.length_take]; omega
    have hlb2 : (s.take b).length ≤ s.length := by rw [List.length_take]; omega
    rw [List.drop_eq_nil_of_le hlb, List.drop_eq_nil_of_le hlb2]


lemma take_min_length (s : List Char) (b : ℕ) : s.take (min b s.length) = s.take b := by
  rcases le_total b s.length with h | h
  · rw [min_eq_left h]
  · rw [min_eq_right h, List.take_length, List.take_of_length_le h]

lemma chunkLoop_get (text : List Char) (cs : ℕ) (hcs : 200 < cs) :
    ∀ (fuel : ℕ) (start : ℕ), text.length ≤ start + fuel * (cs - 200) →
    ∃ L, chunkLoop text (cs : ℤ) (start : ℤ) fuel = some L ∧
      ∀ i : ℕ, L.get? i =
        if start + (cs - 200) * i < text.length then
          some ((text.drop (start + (cs - 200) * i)).take cs)
        else none := by
  intro fuel
  induction fuel with
  | zero =>
    intro start h
    simp only [Nat.zero_mul, Nat.add_zero] at h
    refine ⟨[], ?_, ?_⟩
    · simp only [chunkLoop]
      rw [if_neg (by push_cast; omega)]
    · intro i
      rw [if_neg (Nat.not_lt.mpr (le_trans h (Nat.le_add_right _ _)))]
      simp
  | succ fuel ih =>
    intro start h
    by_cases hs : start < text.length
    · have h2 : text.length ≤ (start + (cs - 200)) + fuel * (cs - 200) := by
        rw [Nat.succ_mul] at h; omega
      obtain ⟨L, hL, hLi⟩ := ih (start + (cs - 200)) h2
      refine ⟨pySlice text (start : ℤ) (min ((start : ℤ) + (cs : ℤ)) (text.length : ℤ)) :: L,
        ?_, ?_⟩
      · simp only [chunkLoop]
        rw [if_pos (by push_cast; omega)]
        have hcast : (start : ℤ) + (cs : ℤ) - 200 = ((start + (cs - 200) : ℕ) : ℤ) := by
          push_cast; omega
        rw [hcast, hL]
        rfl
      · intro i
        cases i with
        | zero =>
          simp only [Nat.mul_zero, Nat.add_zero]
          rw [if_pos hs]
          simp only [List.get?]
          have hmin : min ((start : ℤ) + (cs : ℤ)) ((text.length : ℤ))
              = ((min (start + cs) text.length : ℕ) : ℤ) := by push_cast; rfl
          rw [hmin, pySlice_nat, take_min_length, List.drop_take]
          congr 2
          omega
        | succ j =>
          simp only [List.get?]
          rw [hLi j]
          have harith : start + (cs - 200) + (cs - 200) * j = start + (cs - 200) * (j + 1) := by
            ring
          rw [harith]
    · refine ⟨[], ?_, ?_⟩
      · simp only [chunkLoop]
        rw [if_neg (by push_cast; omega)]
      · intro i
        rw [if_neg (Nat.not_lt.mpr (le_trans (Nat.not_lt.mp hs) (Nat.le_add_right _ _)))]
        simp

lemma chunkLoop_terminates (text : List Char) (cs : ℕ) (hcs : 200 < cs) :
    ∃ L, chunkLoop text (cs : ℤ) 0 (text.length + 1) = some L ∧
      ∀ i : ℕ, L.get? i =
        if (cs - 200) * i < text.length then
          some ((text.drop ((cs - 200) * i)).take cs)
        else none := by
  have hfuel : text.length ≤ 0 + (text.length + 1) * (cs - 200) := by
    have h1 : 1 ≤ cs - 200 := by omega
    have h2 : (text.length + 1) * 1 ≤ (text.length + 1) * (cs - 200) :=
      Nat.mul_le_mul_left _ h1
    omega
  obtain ⟨L, hL, hLi⟩ := chunkLoop_get text cs hcs (text.length + 1) 0 hfuel
  refine ⟨L, by simpa using hL, fun i => ?_⟩
  have := hLi i
  simpa using this

lemma chunkText_get (text : List Char) (cs : ℕ) (hcs : 200 < cs) (i : ℕ) :
    (chunkText text (cs : ℤ)).get? i =
      if (cs - 200) * i < text.length then
        some ((text.drop ((cs - 200) * i)).take cs)
      else none := by
  obtain ⟨L, hL, hLi⟩ := chunkLoop_terminates text cs hcs
  unfold chunkText
  rw [hL, Option.getD_some]
  exact hLi i

lemma chunkLoop_diverges (text : List Char) (h : text ≠ []) (cs : ℤ) (hcs : cs ≤ 200) :
    ∀ (fuel : ℕ) (start : ℤ), start ≤ 0 → chunkLoop text cs start fuel = none := by
  have hlen : 0 < text.length := List.length_pos.mpr h
  intro fuel
  induction fuel with
  | zero =>
    intro start hst
    simp only [chunkLoop]
    rw [if_pos (by push_cast; omega)]
  | succ fuel ih =>
    intro start hst
    simp only [chunkLoop]
    rw [if_pos (by push_cast; omega), ih (start + cs - 200) (by omega)]
    rfl

/-- C10: `chunk_text` terminates for every text when `chunk_size > 200`
(fuel `len + 1` always suffices since the start index grows by
`chunk_size - 200 ≥ 1`), the empty string yields the empty chunk list, and
for `chunk_size ≤ 200` on non-empty text the loop never terminates: no
amount of fuel completes it. -/
theorem c10_chunk_termination (text : List Char) (cs : ℕ) (csz : ℤ) (fuel : ℕ)
    (hterm : 200 < cs) (hdiv : csz ≤ 200) (hne : text ≠ []) :
    (chunkLoop text (cs : ℤ) 0 (text.length + 1)).isSome = true ∧
    chunkLoop text csz 0 fuel = none ∧
    chunkText [] csz = [] := by
  refine ⟨?_, chunkLoop_diverges text hne csz hdiv fuel 0 le_rfl, ?_⟩
  · obtain ⟨L, hL, _⟩ := chunkLoop_terminates text cs hterm
    rw [hL]; rfl
  · rfl

/-- Witness for C10 at `chunk_size` 2000 (terminates) and 100 (does not)
on the one-character text. -/
theorem c10_witness :
    (chunkLoop ['a'] ((2000 : ℕ) : ℤ) 0 2).isSome = true ∧
    chunkLoop ['a'] 100 0 7 = none ∧
    chunkText [] 100 = [] :=
  c10_chunk_termination ['a'] 2000 100 7 (by omega) (by omega) (by simp)

lemma chunkText_get2000 (text : List Char) (i : ℕ) :
    (chunkText text 2000).get? i =
      if 1800 * i < text.length then
        some ((text.drop (1800 * i)).take 2000)
      else none := by
  have hc : ((2000 : ℕ) : ℤ) = (2000 : ℤ) := by norm_cast
  rw [← hc, chunkText_get text 2000 (by omega) i]

lemma chunkText2000_shape (text : List Char) (h : text.length = 4500) :
    chunkText text 2000
      = [text.take 2000, (text.drop 1800).take 2000, (text.drop 3600).take 2000] := by
  apply List.ext
  intro i
  rw [chunkText_get2000 text i]
  match i with
  | 0 => rw [if_pos (by omega)]; norm_num
  | 1 => rw [if_pos (by omega)]; norm_num
  | 2 => rw [if_pos (by omega)]; norm_num
  | (j + 3) => rw [if_neg (by omega)]; simp [List.get?]

/-- C4 (amended): on a 4500-character text, `chunk_text` with size 2000
yields exactly three chunks of lengths 2000, 2000 and 900 (the loop steps
by `2000 - 200 = 1800`, so the last chunk starts at 3600), and every
consecutive pair except the last shares the 200-character boundary
(`chunk[0][-200:] == chunk[1][:200]`). -/
theorem c4_chunk_4500 (text : List Char) (h : text.length = 4500) :
    (chunkText text 2000).map List.length = [2000, 2000, 900] ∧
    takeLast ((chunkText text 2000).getD 0 []) 200
      = ((chunkText text 2000).getD 1 []).take 200 := by
  rw [chunkText2000_shape text h]
  constructor
  · simp [List.length_take, List.length_drop, h]
  · show takeLast (text.take 2000) 200 = ((text.drop 1800).take 2000).take 200
    unfold takeLast
    rw [List.length_take, h]
    norm_num
    rw [List.drop_take, List.take_take]
    norm_num

/-- Witness for C4 on the concrete 4500-character text `'a' * 4500`. -/
theorem c4_witness :
    (chunkText (List.replicate 4500 'a') 2000).map List.length = [2000, 2000, 900] ∧
    takeLast ((chunkText (List.replicate 4500 'a') 2000).getD 0 []) 200
      = ((chunkText (List.replicate 4500 'a') 2000).getD 1 []).take 200 :=
  c4_chunk_4500 (List.replicate 4500 'a') (by rw [List.length_replicate])

/-- Counterexample to C4 as stated: on `'a' * 4500` the chunk lengths are
`[2000, 2000, 900]`, not the claimed `[2000, 2000, 500]`. -/
theorem c4_counterexample :
    (chunkText (List.replicate 4500 'a') 2000).map List.length = [2000, 2000, 900] ∧
    ([2000, 2000, 900] : List ℕ) ≠ [2000, 2000, 500] := by
  constructor
  · rw [chunkText2000_shape _ (by rw [List.length_replicate])]
    simp only [List.map_cons, List.map_nil, List.length_take, List.length_drop,
      List.length_replicate]
    norm_num
  · decide

/-- C5 (amended): every chunk of `chunk_text(text)` (size 2000) is the
substring of `text` starting at `1800 * i` of length at most 2000, in
order; every two consecutive chunks share exactly 200 characters
(suffix of one = 200-character head of the next) — except possibly the
last pair, which shares exactly 200 characters iff the earlier chunk has
the full 2000 length; any pair followed by a further chunk always shares
exactly 200 characters. -/
theorem c5_chunk_overlap (text : List Char) (i : ℕ) :
    (∀ c, (chunkText text 2000).get? i = some c →
        c = (text.drop (1800 * i)).take 2000 ∧ c.length ≤ 2000) ∧
    (∀ ci cj, (chunkText text 2000).get? i = some ci →
        (chunkText text 2000).get? (i + 1) = some cj →
        ((takeLast ci 200 = cj.take 200 ↔ 1800 * i + 2000 ≤ text.length) ∧
         (((chunkText text 2000).get? (i + 2)).isSome = true →
           takeLast ci 200 = cj.take 200))) := by
  constructor
  · intro c hc
    rw [chunkText_get2000] at hc
    by_cases h1 : 1800 * i < text.length
    · rw [if_pos h1] at hc
      injection hc with hc
      exact ⟨hc.symm, hc ▸ List.length_take_le 2000 _⟩
    · rw [if_neg h1] at hc
      exact absurd hc (by simp)
  · intro ci cj hci hcj
    rw [chunkText_get2000] at hci hcj
    by_cases h1 : 1800 * i < text.length
    case neg => rw [if_neg h1] at hci; exact absurd hci (by simp)
    by_cases h2 : 1800 * (i + 1) < text.length
    case neg => rw [if_neg h2] at hcj; exact absurd hcj (by simp)
    rw [if_pos h1] at hci
    rw [if_pos h2] at hcj
    injection hci with hci
    injection hcj with hcj
    have hback : 1800 * i + 2000 ≤ text.length → takeLast ci 200 = cj.take 200 := by
      intro hfull
      subst hci; subst hcj
      unfold takeLast
      have lci : ((text.drop (1800 * i)).take 2000).length = 2000 := by
        rw [List.length_take, List.length_drop]; omega
      rw [lci]
      norm_num
      rw [List.drop_take, List.take_take]
      norm_num
      congr 2
    have hfwd : takeLast ci 200 = cj.take 200 → 1800 * i + 2000 ≤ text.length := by
      intro heq
      by_contra hnf
      have hlen := congrArg List.length heq
      unfold takeLast at hlen
      rw [List.length_drop] at hlen
      rw [List.length_take] at hlen
      have lci : ci.length = text.length - 1800 * i := by
        subst hci; rw [List.length_take, List.length_drop]; omega
      have lcj : cj.length = text.length - 1800 * (i + 1) := by
        subst hcj; rw [List.length_take, List.length_drop]; omega
      omega
    have hfull3 : ((chunkText text 2000).get? (i + 2)).isSome = true →
        1800 * i + 2000 ≤ text.length := by
      intro hsome
      rw [chunkText_get2000] at hsome
      by_cases h3 : 1800 * (i + 2) < text.length
      · omega
      · rw [if_neg h3] at hsome; simp at hsome
    exact ⟨⟨hfwd, hback⟩, fun h3 => hback (hfull3 h3)⟩

/-- Witness for C5 on `'a' * 2100` (two chunks, first one full). -/
theorem c5_witness :
    (List.replicate 2000 'a'
        = ((List.replicate 2100 'a').drop (1800 * 0)).take 2000 ∧
      (List.replicate 2000 'a').length ≤ 2000) ∧
    takeLast (List.replicate 2000 'a') 200 = (List.replicate 300 'a').take 200 := by
  have h := c5_chunk_overlap (List.replicate 2100 'a') 0
  have hg0 : (chunkText (List.replicate 2100 'a') 2000).get? 0
      = some (List.replicate 2000 'a') := by
    rw [chunkText_get2000, if_pos (by rw [List.length_replicate]; omega)]
    norm_num [List.take_replicate]
  have hg1 : (chunkText (List.replicate 2100 'a') 2000).get? 1
      = some (List.replicate 300 'a') := by
    rw [chunkText_get2000, if_pos (by rw [List.length_replicate]; omega)]
    norm_num [List.drop_replicate, List.take_replicate]
  exact ⟨h.1 _ hg0, ((h.2 _ _ hg0 hg1).1).mpr (by rw [List.length_replicate]; omega)⟩

/-- Counterexample to C5 as stated: on a 1900-character text the two
chunks have lengths 1900 and 100, and the 200-character suffix of the
first (200 characters) cannot equal the 200-character head of the second
(only 100 characters): consecutive chunks do not share exactly 200
characters. -/
theorem c5_counterexample :
    chunkText (List.replicate 1900 'a') 2000
      = [List.replicate 1900 'a', List.replicate 100 'a'] ∧
    takeLast (List.replicate 1900 'a') 200 ≠ (List.replicate 100 'a').take 200 := by
  constructor
  · apply List.ext
    intro i
    rw [chunkText_get2000]
    match i with
    | 0 =>
      rw [if_pos (by rw [List.length_replicate]; omega)]
      norm_num [List.take_replicate]
    | 1 =>
      rw [if_pos (by rw [List.length_replicate]; omega)]
      norm_num [List.drop_replicate, List.take_replicate]
    | (j + 2) =>
      rw [if_neg (by rw [List.length_replicate]; omega)]
      simp [List.get?]
  · intro heq
    have hlen := congrArg List.length heq
    unfold takeLast at hlen
    rw [List.length_drop, List.length_take, List.length_replicate,
      List.length_replicate] at hlen
    omega

/-- C3 (amended): `normalize_kalshi` rejects (returns `None`) exactly when
`ticker` is missing or `yes_bid`/`yes_ask` are non-numeric; it never raises.
`normalize_polymarket` raises an uncaught `IndexError` exactly when the
first-outcome indexing hits an empty sequence, rejects exactly when the
price lookup fails with a caught error or the price parses but `volume`
fails float conversion, and a missing `conditionId`/`id` is NOT a
rejection — the external id defaults to the empty string.  A rejected
payload is never passed to `upsert_market` (the loop only commits). -/
theorem c3_normalizer_rejection (o : JObj) (msg : KMsg) (raw : JVal)
    (hdec : msg.decoded = some raw) :
    (normalizeKalshi (JVal.jobj o) = none ↔
      objGet? o "ticker" = none ∨ toNum (objGet o "yes_bid" (JVal.jnum 0)) = none ∨
        toNum (objGet o "yes_ask" (JVal.jnum 0)) = none) ∧
    (normalizePolymarket (JVal.jobj o) = PmResult.raised ↔
      pmFirstFloat (objGet o "outcomePrices" (JVal.jarr [JVal.jstr "0"])) = PmPrice.praise) ∧
    (normalizePolymarket (JVal.jobj o) = PmResult.rejected ↔
      pmFirstFloat (objGet o "outcomePrices" (JVal.jarr [JVal.jstr "0"])) = PmPrice.pcaught ∨
      ((pmFirstFloat (objGet o "outcomePrices" (JVal.jarr [JVal.jstr "0"]))
          ≠ PmPrice.praise) ∧
        pyFloat (objGet o "volume" (JVal.jnum 0)) = none)) ∧
    (objGet? o "conditionId" = none → objGet? o "id" = none →
      ∀ m, normalizePolymarket (JVal.jobj o) = PmResult.ok m →
        m.externalId = JVal.jstr "") ∧
    (msg.topic = "kalshi.markets" → normalizeKalshi raw = none →
      marketsStep msg = ([Act.commit msg.offset], false)) ∧
    (msg.topic = "polymarket.markets" → normalizePolymarket raw = PmResult.rejected →
      marketsStep msg = ([Act.commit msg.offset], false)) := by
  refine ⟨?_, ?_, ?_, ?_, ?_, ?_⟩
  · unfold normalizeKalshi
    cases ht : objGet? o "ticker" with
    | none => simp [ht]
    | some t =>
      cases hb : toNum (objGet o "yes_bid" (JVal.jnum 0)) with
      | none => simp [ht, hb]
      | some b =>
        cases ha : toNum (objGet o "yes_ask" (JVal.jnum 0)) with
        | none => simp [ht, hb, ha]
        | some a => simp [ht, hb, ha]
  · unfold normalizePolymarket
    cases hp : pmFirstFloat (objGet o "outcomePrices" (JVal.jarr [JVal.jstr "0"])) with
    | praise => simp [hp]
    | pcaught => simp [hp]
    | pok q =>
      cases hv : pyFloat (objGet o "volume" (JVal.jnum 0)) with
      | none => simp [hp, hv]
      | some v => simp [hp, hv]
  · unfold normalizePolymarket
    cases hp : pmFirstFloat (objGet o "outcomePrices" (JVal.jarr [JVal.jstr "0"])) with
    | praise => simp [hp]
    | pcaught => simp [hp]
    | pok q =>
      cases hv : pyFloat (objGet o "volume" (JVal.jnum 0)) with
      | none => simp [hp, hv]
      | some v => simp [hp, hv]
  · intro hc hid m hm
    simp only [normalizePolymarket] at hm
    cases hp : pmFirstFloat (objGet o "outcomePrices" (JVal.jarr [JVal.jstr "0"])) with
    | praise => rw [hp] at hm; exact absurd hm (by simp)
    | pcaught => rw [hp] at hm; exact absurd hm (by simp)
    | pok q =>
      rw [hp] at hm
      cases hv : pyFloat (objGet o "volume" (JVal.jnum 0)) with
      | none => rw [hv] at hm; exact absurd hm (by simp)
      | some v =>
        rw [hv] at hm
        injection hm with hm
        rw [← hm]
        simp [objGet, hc, hid]
  · intro htop hnorm
    simp only [marketsStep, hdec]
    rw [if_pos htop, hnorm]
  · intro htop hnorm
    simp only [marketsStep, hdec]
    rw [if_neg (by rw [htop]; decide), if_pos htop, hnorm]

/-- Witness for C3 at a tickerless Kalshi payload and an undecoded-free
kalshi message. -/
theorem c3_witness :
    normalizeKalshi (JVal.jobj [("yes_bid", JVal.jnum 50)]) = none ∧
    marketsStep ⟨"kalshi.markets", 4, some (JVal.jobj [])⟩ = ([Act.commit 4], false) := by
  have h := c3_normalizer_rejection [("yes_bid", JVal.jnum 50)]
    ⟨"kalshi.markets", 4, some (JVal.jobj [])⟩ (JVal.jobj []) rfl
  exact ⟨h.1.mpr (Or.inl rfl), h.2.2.2.2.1 rfl rfl⟩

/-- Counterexample to C3 as stated: the empty Polymarket payload has no
`conditionId`/`id`, yet it is not rejected (the claimed "rejection exactly
on missing identifier" fails), and a payload with an empty `outcomePrices`
list makes `normalize_polymarket` raise an uncaught `IndexError` (the
claimed "never raises an exception" fails). -/
theorem c3_counterexample :
    objGet? ([] : JObj) "conditionId" = none ∧
    objGet? ([] : JObj) "id" = none ∧
    pmIsRejected (normalizePolymarket (JVal.jobj [])) = false ∧
    normalizePolymarket (JVal.jobj [("outcomePrices", JVal.jarr [])]) = PmResult.raised :=
  ⟨rfl, rfl, rfl, rfl⟩

/-- C6 (amended): a successful `normalize_kalshi` always sets
`yes_price = (yes_bid + yes_ask) / 200`, which lies in `[0, 1]` whenever
both cent inputs lie in `[0, 100]`; a successful `normalize_polymarket`
sets `yes_price` to the float parsed from the first `outcomePrices`
element.  (Unvalidated inputs outside those ranges produce `yes_price`
outside `[0, 1]` — see the counterexample.) -/
theorem c6_yes_price (o : JObj) (m : NMarket) (p : JObj) (pm : NMarket)
    (hk : normalizeKalshi (JVal.jobj o) = some m)
    (hp : normalizePolymarket (JVal.jobj p) = PmResult.ok pm) :
    m.yesPrice = ((toNum (objGet o "yes_bid" (JVal.jnum 0))).getD 0
        + (toNum (objGet o "yes_ask" (JVal.jnum 0))).getD 0) / 200 ∧
    (0 ≤ (toNum (objGet o "yes_bid" (JVal.jnum 0))).getD 0 →
      (toNum (objGet o "yes_bid" (JVal.jnum 0))).getD 0 ≤ 100 →
      0 ≤ (toNum (objGet o "yes_ask" (JVal.jnum 0))).getD 0 →
      (toNum (objGet o "yes_ask" (JVal.jnum 0))).getD 0 ≤ 100 →
      0 ≤ m.yesPrice ∧ m.yesPrice ≤ 1) ∧
    pmFirstFloat (objGet p "outcomePrices" (JVal.jarr [JVal.jstr "0"])) = PmPrice.pok pm.yesPrice := by
  simp only [normalizeKalshi] at hk
  simp only [normalizePolymarket] at hp
  cases ht : objGet? o "ticker" with
  | none => rw [ht] at hk; exact absurd hk (by simp)
  | some t =>
    rw [ht] at hk
    cases hb : toNum (objGet o "yes_bid" (JVal.jnum 0)) with
    | none => rw [hb] at hk; exact absurd hk (by simp)
    | some b =>
      rw [hb] at hk
      cases ha : toNum (objGet o "yes_ask" (JVal.jnum 0)) with
      | none => rw [ha] at hk; exact absurd hk (by simp)
      | some a =>
        rw [ha] at hk
        injection hk with hk
        cases hpp : pmFirstFloat (objGet p "outcomePrices" (JVal.jarr [JVal.jstr "0"])) with
        | praise => rw [hpp] at hp; exact absurd hp (by simp)
        | pcaught => rw [hpp] at hp; exact absurd hp (by simp)
        | pok q =>
          rw [hpp] at hp
          cases hv : pyFloat (objGet p "volume" (JVal.jnum 0)) with
          | none => rw [hv] at hp; exact absurd hp (by simp)
          | some v =>
            rw [hv] at hp
            injection hp with hp
            refine ⟨?_, ?_, ?_⟩
            · rw [← hk]
              simp [Option.getD_some]
            · intro hb0 hb100 ha0 ha100
              rw [← hk]
              simp only [Option.getD_some] at hb0 hb100 ha0 ha100
              constructor
              · simp only []
                positivity
              · simp only []
                rw [div_le_one (by norm_num)]
                linarith
            · rw [← hp]

/-- Witness for C6 at concrete Kalshi (bid 40¢, ask 50¢) and Polymarket
(first outcome 0.62) payloads. -/
theorem c6_witness :
    k6m.yesPrice = ((toNum (objGet k6o "yes_bid" (JVal.jnum 0))).getD 0
        + (toNum (objGet k6o "yes_ask" (JVal.jnum 0))).getD 0) / 200 ∧
    (0 ≤ k6m.yesPrice ∧ k6m.yesPrice ≤ 1) ∧
    pmFirstFloat (objGet p6o "outcomePrices" (JVal.jarr [JVal.jstr "0"]))
      = PmPrice.pok p6m.yesPrice := by
  have h := c6_yes_price k6o k6m p6o p6m rfl rfl
  exact ⟨h.1, h.2.1 (by decide) (by decide) (by decide) (by decide), h.2.2⟩

/-- Counterexample to C6 as stated: normalization succeeds on a Kalshi
payload with `yes_bid = yes_ask = 300`, producing `yes_price = 3 ∉ [0,1]`
(the code never clamps or validates the cent inputs). -/
theorem c6_counterexample :
    (normalizeKalshi (JVal.jobj [("ticker", JVal.jstr "T"), ("yes_bid", JVal.jnum 300),
        ("yes_ask", JVal.jnum 300)])).map NMarket.yesPrice = some 3 ∧
    ¬((3 : ℚ) ≤ 1) := by
  constructor
  · show some (((300 : ℚ) + 300) / 200) = some 3
    norm_num
  · norm_num

/-- C7: in both consumer loops an undecodable message is permanently
skipped — its offset is committed and the loop continues with the rest —
and for decodable messages the commit is the last action of a
non-crashing iteration (so it happens only after processing completes),
while an iteration aborted by an uncaught exception never commits: a
markets iteration crashes before any action, and a news iteration may
have stored chunks before the crash but its offset is not committed. -/
theorem c7_commit_discipline (msg : KMsg) (rest : List KMsg) (embedOk : ℕ → Bool)
    (hdec : msg.decoded = none) :
    marketsStep msg = ([Act.commit msg.offset], false) ∧
    newsStep embedOk msg = ([Act.commit msg.offset], false) ∧
    marketsRun (msg :: rest) = Act.commit msg.offset :: marketsRun rest ∧
    newsRun embedOk (msg :: rest) = Act.commit msg.offset :: newsRun embedOk rest ∧
    (∀ msg2 : KMsg,
      ((marketsStep msg2).2 = false →
        (marketsStep msg2).1.getLast? = some (Act.commit msg2.offset)) ∧
      ((marketsStep msg2).2 = true → (marketsStep msg2).1 = []) ∧
      ((newsStep embedOk msg2).2 = false →
        (newsStep embedOk msg2).1.getLast? = some (Act.commit msg2.offset)) ∧
      ((newsStep embedOk msg2).2 = true →
        Act.commit msg2.offset ∉ (newsStep embedOk msg2).1)) := by
  have hm : marketsStep msg = ([Act.commit msg.offset], false) := by
    simp only [marketsStep, hdec]
  have hn : newsStep embedOk msg = ([Act.commit msg.offset], false) := by
    simp only [newsStep, hdec]
  refine ⟨hm, hn, ?_, ?_, ?_⟩
  · simp only [marketsRun, hm]
    rfl
  · simp only [newsRun, hn]
    rfl
  · intro msg2
    have hsplit : (marketsStep msg2 = ([Act.commit msg2.offset], false) ∨
        marketsStep msg2 = ([], true)) ∨
        (∃ m, marketsStep msg2 = ([Act.upsertA m, Act.commit msg2.offset], false)) := by
      cases hd : msg2.decoded with
      | none => simp [marketsStep, hd]
      | some raw =>
        simp only [marketsStep, hd]
        by_cases hk : msg2.topic = "kalshi.markets"
        · rw [if_pos hk]
          cases hkr : normalizeKalshi raw with
          | none => exact Or.inl (Or.inl rfl)
          | some m => exact Or.inr ⟨m, rfl⟩
        · rw [if_neg hk]
          by_cases hp : msg2.topic = "polymarket.markets"
          · rw [if_pos hp]
            cases hpr : normalizePolymarket raw with
            | ok m => exact Or.inr ⟨m, rfl⟩
            | rejected => exact Or.inl (Or.inl rfl)
            | raised => exact Or.inl (Or.inr rfl)
          · rw [if_neg hp]
            exact Or.inl (Or.inl rfl)
    have hnsplit : newsStep embedOk msg2 = ([Act.commit msg2.offset], false) ∨
        (∃ stores : List (JVal × String), newsStep embedOk msg2
          = (stores.map (fun p : JVal × String => Act.storeA p.1 p.2)
              ++ [Act.commit msg2.offset], false)) ∨
        (∃ stores : List (JVal × String), newsStep embedOk msg2
          = (stores.map (fun p : JVal × String => Act.storeA p.1 p.2), true)) := by
      cases hd : msg2.decoded with
      | none => simp [newsStep, hd]
      | some article =>
        simp only [newsStep, hd]
        cases hp : processArticle article embedOk with
        | mk stores crashed =>
          cases crashed
          · exact Or.inr (Or.inl ⟨stores, rfl⟩)
          · exact Or.inr (Or.inr ⟨stores, rfl⟩)
    refine ⟨?_, ?_, ?_, ?_⟩
    · intro hfalse
      rcases hsplit with (h | h) | ⟨m, h⟩
      · rw [h]; rfl
      · rw [h] at hfalse; exact absurd hfalse (by simp)
      · rw [h]; rfl
    · intro htrue
      rcases hsplit with (h | h) | ⟨m, h⟩
      · rw [h] at htrue; exact absurd htrue (by simp)
      · rw [h]
      · rw [h] at htrue; exact absurd htrue (by simp)
    · intro hfalse
      rcases hnsplit with h | ⟨stores, h⟩ | ⟨stores, h⟩
      · rw [h]; rfl
      · rw [h]
        simp
      · rw [h] at hfalse; exact absurd hfalse (by simp)
    · intro htrue
      rcases hnsplit with h | ⟨stores, h⟩ | ⟨stores, h⟩
      · rw [h] at htrue; exact absurd htrue (by simp)
      · rw [h] at htrue; exact absurd htrue (by simp)
      · rw [h]
        simp

/-- Witness for C7 on concrete messages: an undecodable one (committed and
skipped), a decodable one (commit last), and a news article whose null
title makes the iteration store a chunk and then crash at `title[:50]`
without committing. -/
theorem c7_witness :
    marketsStep ⟨"kalshi.markets", 5, none⟩ = ([Act.commit 5], false) ∧
    marketsRun [⟨"kalshi.markets", 5, none⟩, ⟨"news.feed", 6, none⟩]
      = [Act.commit 5, Act.commit 6] ∧
    (marketsStep ⟨"other.topic", 9, some JVal.jnull⟩).1.getLast? = some (Act.commit 9) ∧
    Act.commit 11 ∉ (newsStep (fun _ => true)
      ⟨"news.feed", 11, some (JVal.jobj [("title", JVal.jnull),
        ("content", JVal.jstr "hello")])⟩).1 := by
  have h := c7_commit_discipline ⟨"kalshi.markets", 5, none⟩ [⟨"news.feed", 6, none⟩]
    (fun _ => true) rfl
  have h2 := c7_commit_discipline ⟨"news.feed", 6, none⟩ [] (fun _ => true) rfl
  refine ⟨h.1, ?_, (h.2.2.2.2 ⟨"other.topic", 9, some JVal.jnull⟩).1 rfl,
    (h.2.2.2.2 ⟨"news.feed", 11, some (JVal.jobj [("title", JVal.jnull),
      ("content", JVal.jstr "hello")])⟩).2.2.2 (by rfl)⟩
  rw [h.2.2.1, h2.2.2.1]
  rfl

lemma produceSeq_all_produce (keyOf : JVal → Option String) (pr : ℕ → Bool) :
    ∀ (l : List JVal) (i : ℕ) (op : POp), op ∈ (produceSeq keyOf pr l i).1 →
      ∃ k, op = POp.produceOp k := by
  intro l
  induction l with
  | nil => intro i op h; exact absurd h (by simp [produceSeq])
  | cons m rest ih =>
    intro i op h
    simp only [produceSeq] at h
    cases hk : keyOf m with
    | none => rw [hk] at h; exact absurd h (by simp)
    | some k =>
      rw [hk] at h
      simp only [] at h
      by_cases hpr : pr i
      · rw [if_pos hpr] at h; exact absurd h (by simp)
      · rw [if_neg hpr] at h
        rcases List.mem_cons.mp h with h | h
        · exact ⟨k, h⟩
        · exact ih (i + 1) op h

/-- C8 (amended): all three producers are configured with `acks = "all"`
and `retries = 5 ≥ 5`, and every poll cycle in which fetching and all
produce calls succeed performs exactly its produce operations followed by
a flush and only then the sleep to the next poll.  (A cycle aborted by an
exception sleeps without flushing — see the counterexample.) -/
theorem c8_producer_durability (markets arts : List JVal) (pr : ℕ → Bool)
    (hm : (produceSeq kalshiKey pr markets 0).2 = false)
    (hp : (produceSeq polymarketKey pr markets 0).2 = false)
    (ha : (produceSeq newsKey pr arts 0).2 = false) :
    (kalshiProducerConfig.acks = "all" ∧ 5 ≤ kalshiProducerConfig.retries) ∧
    (polymarketProducerConfig.acks = "all" ∧ 5 ≤ polymarketProducerConfig.retries) ∧
    (newsProducerConfig.acks = "all" ∧ 5 ≤ newsProducerConfig.retries) ∧
    kalshiCycle (some markets) pr
      = (produceSeq kalshiKey pr markets 0).1 ++ [POp.flushOp, POp.sleepOp 60] ∧
    polymarketCycle (some markets) pr
      = (produceSeq polymarketKey pr markets 0).1 ++ [POp.flushOp, POp.sleepOp 60] ∧
    newsQueryOps (some arts) pr
      = (produceSeq newsKey pr arts 0).1 ++ [POp.flushOp, POp.sleepOp 1] ∧
    (∀ op ∈ (produceSeq kalshiKey pr markets 0).1, ∃ k, op = POp.produceOp k) := by
  refine ⟨⟨rfl, by norm_num [kalshiProducerConfig]⟩,
    ⟨rfl, by norm_num [polymarketProducerConfig]⟩,
    ⟨rfl, by norm_num [newsProducerConfig]⟩, ?_, ?_, ?_,
    fun op h => produceSeq_all_produce kalshiKey pr markets 0 op h⟩
  · simp only [kalshiCycle, hm]
    rfl
  · simp only [polymarketCycle, hp]
    rfl
  · simp only [newsQueryOps, ha]
    rfl

/-- Witness for C8: a one-market Kalshi cycle with no failures produces,
flushes, then sleeps. -/
theorem c8_witness :
    (kalshiProducerConfig.acks = "all" ∧ 5 ≤ kalshiProducerConfig.retries) ∧
    kalshiCycle (some [JVal.jobj [("ticker", JVal.jstr "A")]]) (fun _ => false)
      = [POp.produceOp "A", POp.flushOp, POp.sleepOp 60] := by
  have h := c8_producer_durability [JVal.jobj [("ticker", JVal.jstr "A")]] [] (fun _ => false)
    rfl rfl rfl
  exact ⟨h.1, h.2.2.2.1⟩

/-- Counterexample to C8 as stated: if the second produce call raises
(e.g. `KafkaException`), the Kalshi cycle jumps to its handler and sleeps
with one message enqueued but never flushed — the cycle does not flush its
batch before sleeping. -/
theorem c8_counterexample :
    kalshiCycle (some [JVal.jobj [("ticker", JVal.jstr "A")],
        JVal.jobj [("ticker", JVal.jstr "B")]]) (fun i => i == 1)
      = [POp.produceOp "A", POp.sleepOp 60] ∧
    POp.flushOp ∉ [POp.produceOp "A", POp.sleepOp 60] :=
  ⟨rfl, by decide⟩
